import Mathlib

/-!
Verification development for the CloudstreamWin plugin runtime and
multi-provider orchestration layer.

The definitions below are a shallow embedding of the TypeScript sources:
  - the capability registry (ApiHolder: addPlugin, removePlugin, getApi,
    getAllApis),
  - the search orchestrator (runSearch with its round-robin merge loop),
  - the plugin loader (loadPlugin, unloadPlugin, savePluginMetadata and the
    isBinary content sniff),
  - the resume store validity predicate (shouldResume).

JavaScript string primitives used by the sources (trim, startsWith,
substring, length) are modelled over the character list of a Lean String.
Asynchronous provider calls that may reject are modelled as Except values;
external collaborators (network download, the sidecar bridge, dynamic code
evaluation, local storage) are parameters of the embedding.
-/

namespace CloudstreamWin

/-- Models the JavaScript whitespace class used by String.prototype.trim:
tab, line feed, vertical tab, form feed, carriage return, space, NBSP and
the BOM / line separator code points. -/
def jsIsWhitespace (c : Char) : Bool :=
  c == ' ' || c == '\t' || c == '\n' || c == '\r' ||
  c == (Char.ofNat 11) || c == (Char.ofNat 12) ||
  c == (Char.ofNat 160) || c == (Char.ofNat 0xFEFF) ||
  c == (Char.ofNat 0x2028) || c == (Char.ofNat 0x2029)

/-- Character-list form of trimming on both ends. -/
def trimChars (cs : List Char) : List Char :=
  ((cs.dropWhile jsIsWhitespace).reverse.dropWhile jsIsWhitespace).reverse

/-- Models JavaScript String.prototype.trim. -/
def jsTrim (s : String) : String := ⟨trimChars s.data⟩

/-- Boolean prefix test on character lists. -/
def charsPrefix : List Char → List Char → Bool
  | [], _ => true
  | _ :: _, [] => false
  | p :: ps, c :: cs => p == c && charsPrefix ps cs

/-- Models JavaScript String.prototype.startsWith. -/
def jsStartsWith (s pre : String) : Bool := charsPrefix pre.data s.data

/-- One pass of the merge loop in runSearch: for the current index, the
index-th element of every per-provider list that still has one
(the loop body guarded by list.length > index). -/
def mergeStep {α : Type} (allLists : List (List α)) (i : Nat) : List α :=
  allLists.filterMap (fun l => l.get? i)

/-- The largest length among the per-provider lists. -/
def listsMaxLen {α : Type} (allLists : List (List α)) : Nat :=
  allLists.foldr (fun l m => max l.length m) 0

/-- The while loop of runSearch, fuel-indexed: starting at index i it
appends the index-th elements of all lists and advances the index, stopping
at the first index where no list contributed (added === 0).  The fuel in
mergeResults strictly exceeds every index the loop can reach, so the fuel
case is never the exit path; mergeResults_eq_spec below proves the loop
extensionally equal to the direct round-robin description at every input. -/
def mergeAux {α : Type} (allLists : List (List α)) : Nat → Nat → List α
  | 0, _ => []
  | Nat.succ fuel, i =>
    let step := mergeStep allLists i
    if step.isEmpty then [] else step ++ mergeAux allLists fuel (i + 1)

/-- The round-robin merge of runSearch, entered at index 0. -/
def mergeResults {α : Type} (allLists : List (List α)) : List α :=
  mergeAux allLists (listsMaxLen allLists + 1) 0

/-- The round-robin interleave as the spec describes it: for index
0, 1, ... take the index-th element of every list that still has one,
until every list is exhausted. -/
def roundRobinSpec {α : Type} (allLists : List (List α)) : List α :=
  ((List.range (listsMaxLen allLists)).map (fun i => mergeStep allLists i)).flatten

/-- A provider handle as runSearch consumes it: a name and the search
operations; a rejecting promise is modelled as Except.error. -/
structure Provider (α : Type) where
  name : String
  mainUrl : String
  search : String → Except String (List α)
  quickSearch : Option (String → Except String (List α))

/-- Options of runSearch (activeProviders filter and the quick flag). -/
structure SearchOptions where
  activeProviders : List String := []
  quick : Bool := false

/-- The status field of the orchestrator result envelope. -/
inductive SearchStatus where
  | idle
  | loading
  | success
  | error
deriving DecidableEq, Repr

/-- The result envelope of runSearch. -/
structure SearchResultState (α : Type) where
  status : SearchStatus
  query : String
  mergedResults : List α
  perProviderResults : List (String × List α)
  error : Option String
deriving Repr

/-- Assignment into a JavaScript object used as a record: an existing key
keeps its position and gets the new value, a new key is appended. -/
def recordInsert {α : Type} (k : String) (v : List α) :
    List (String × List α) → List (String × List α)
  | [] => [(k, v)]
  | (k', v') :: rest =>
      if k' = k then (k, v) :: rest else (k', v') :: recordInsert k v rest

/-- The per-provider fan-out of runSearch, sequentialised: each provider is
searched with the trimmed query (quickSearch when quick is set, which may be
absent and is then skipped); a successful list is recorded under the
provider name, a rejection is caught and skipped. -/
def gatherResults {α : Type} (quick : Bool) (trimmed : String) :
    List (Provider α) → List (String × List α) → List (String × List α)
  | [], acc => acc
  | p :: rest, acc =>
    let searchFn := if quick then p.quickSearch else some p.search
    let acc' := match searchFn with
      | none => acc
      | some f => match f trimmed with
        | Except.ok results => recordInsert p.name results acc
        | Except.error _ => acc
    gatherResults quick trimmed rest acc'

/-- The search orchestrator runSearch.  The providers argument is the
registry snapshot (apiHolder.getAllApis()), stremio is the stremioService
search; queries whose trimmed length is at most 1 short-circuit to an idle
envelope before any provider is consulted. -/
def runSearch {α : Type} (providers : List (Provider α))
    (stremio : String → Except String (List α))
    (query : String) (options : SearchOptions) : SearchResultState α :=
  let trimmed := jsTrim query
  if trimmed.length ≤ 1 then
    ⟨SearchStatus.idle, trimmed, [], [], none⟩
  else
    let filtered := providers.filter (fun p =>
      options.activeProviders.isEmpty || options.activeProviders.contains p.name)
    let ppr := gatherResults options.quick trimmed filtered []
    let ppr := match stremio trimmed with
      | Except.ok rs => if rs.length > 0 then recordInsert "stremio" rs ppr else ppr
      | Except.error _ => ppr
    let allLists := ppr.map Prod.snd
    ⟨SearchStatus.success, trimmed, mergeResults allLists, ppr, none⟩

/-- A registry entry: its unique name plus an identity token modelling
JavaScript reference identity of the MainAPI object. -/
structure Handle where
  name : String
  id : Nat
deriving DecidableEq, Repr

/-- ApiHolder.removePlugin: keeps every entry that is not reference-equal
to the given one. -/
def removePlugin (apis : List Handle) (p : Handle) : List Handle :=
  apis.filter (fun q => !(q == p))

/-- ApiHolder.addPlugin: a same-named existing entry is removed first, then
the new entry is pushed at the end. -/
def addPlugin (apis : List Handle) (p : Handle) : List Handle :=
  match apis.find? (fun api => api.name == p.name) with
  | some existing => removePlugin apis existing ++ [p]
  | none => apis ++ [p]

/-- ApiHolder.getApi: first entry with the given name. -/
def getApi (apis : List Handle) (name : String) : Option Handle :=
  apis.find? (fun api => api.name == name)

/-- ApiHolder.getAllApis returns a snapshot copy of the backing list. -/
def getAllApis (apis : List Handle) : List Handle := apis

/-- A register or unregister call on the registry. -/
inductive RegistryOp where
  | add (p : Handle)
  | remove (p : Handle)

/-- One registry operation applied to the backing list. -/
def applyRegistryOp (apis : List Handle) : RegistryOp → List Handle
  | RegistryOp.add p => addPlugin apis p
  | RegistryOp.remove p => removePlugin apis p

/-- A sequence of registry operations applied to the initially empty
registry. -/
def applyRegistryOps (ops : List RegistryOp) : List Handle :=
  ops.foldl applyRegistryOp []

/-- An InstalledPluginRecord as persisted by the loader. -/
structure PluginMetadata where
  internalName : String
  url : String
  version : Int
  repositoryUrl : String
  enabled : Bool
deriving DecidableEq, Repr

/-- savePluginMetadata: the first stored record with the same internalName
and repositoryUrl is replaced in place (findIndex then assignment),
otherwise the record is pushed at the end. -/
def savePluginMetadata (plugins : List PluginMetadata) (p : PluginMetadata) :
    List PluginMetadata :=
  match plugins with
  | [] => [p]
  | q :: rest =>
      if q.internalName = p.internalName ∧ q.repositoryUrl = p.repositoryUrl then
        p :: rest
      else
        q :: savePluginMetadata rest p

/-- The localStorage slots the loader touches: the per (internalName,
repositoryUrl) cached plugin code. -/
def getStoredPluginCode (codeStore : List ((String × String) × String))
    (internalName repositoryUrl : String) : Option String :=
  (codeStore.find? (fun kv => kv.1 = (internalName, repositoryUrl))).map Prod.snd

/-- storePluginCode: overwrite the keyed slot or create it. -/
def storePluginCode (codeStore : List ((String × String) × String))
    (internalName repositoryUrl code : String) :
    List ((String × String) × String) :=
  match codeStore with
  | [] => [((internalName, repositoryUrl), code)]
  | kv :: rest =>
      if kv.1 = (internalName, repositoryUrl) then
        ((internalName, repositoryUrl), code) :: rest
      else
        kv :: storePluginCode rest internalName repositoryUrl code

/-- The mutable host state the loader reads and writes: the registry
backing list, the stored InstalledPluginRecords and the cached package
bytes. -/
structure LoaderState where
  registry : List Handle
  stored : List PluginMetadata
  codeStore : List ((String × String) × String)
deriving Repr

/-- The descriptor fields loadPlugin consumes. -/
structure SitePlugin where
  name : String
  internalName : String
  url : String
  version : Int
deriving DecidableEq, Repr

/-- The character class of the binary sniff regex in isBinary:
x00-x08, x0B-x0C, x0E-x1F, x7F-x9F. -/
def isBinaryChar (c : Char) : Bool :=
  (c.toNat ≤ 8) || (11 ≤ c.toNat && c.toNat ≤ 12) ||
  (14 ≤ c.toNat && c.toNat ≤ 31) || (127 ≤ c.toNat && c.toNat ≤ 159)

/-- Control characters in the usual sense: C0 controls plus DEL and the C1
range. -/
def isControlChar (c : Char) : Bool :=
  c.toNat < 32 || (127 ≤ c.toNat && c.toNat ≤ 159)

/-- The content sniff isBinary of loadPlugin.  The isBinaryFile flag is the
closed-over variable of the source: set when the download arrived as an
ArrayBuffer, or when cached text starts with PK or dex.  Otherwise the text
is binary when it starts with the ZIP signature PK, the DEX magic, or when
the binary-class characters in the leading 100-character window exceed a
tenth of that window (the count is an integer and the window is at most 100
characters long, so the float comparison count > length * 0.1 of the source
is exactly the integer comparison count * 10 > length). -/
def isBinaryCheck (isBinaryFile : Bool) (text : String) : Bool :=
  if isBinaryFile then true
  else if jsStartsWith text "PK" then true
  else if jsStartsWith text "dex\n" then true
  else
    let first100 := text.data.take 100
    let binaryChars := first100.filter isBinaryChar
    decide (binaryChars.length * 10 > first100.length)

/-- What downloadPlugin produced: the content, plus whether the response
was returned as an ArrayBuffer (the content type was binary). -/
structure DownloadOut where
  isArrayBuffer : Bool
  content : String

/-- Outcome of evaluating scripted plugin code: the evaluation threw, the
export was not an object, the export lacked search or load, or a valid
MainAPI object (modelled by its registry handle). -/
inductive EvalOut where
  | throws (msg : String)
  | notObject
  | missingMethods
  | valid (h : Handle)

/-- The external collaborators of loadPlugin: the network download by URL,
the sidecar bridge load call keyed by internal name and repository URL, the
dynamic evaluation of scripted code, and the identity of the proxy object
the DEX path would register. -/
structure LoadEnv where
  download : String → Option DownloadOut
  jvmLoad : String → String → Except String Bool
  evalPlugin : String → EvalOut
  proxyId : Nat

/-- The failure stages of PluginLoadError. -/
inductive LoadStage where
  | download
  | parse
  | execute
  | validate
  | register
deriving DecidableEq, Repr

/-- What a loadPlugin run produced: the returned success flag and error
stage, the state after the run, and whether the run downloaded bytes or
ran plugin code (executed covers both the scripted evaluation and the
sidecar load attempt). -/
structure LoadOutcome where
  success : Bool
  errorStage : Option LoadStage
  state : LoaderState
  fetched : Bool
  executed : Bool
deriving Repr

/-- The tail of loadPlugin once the code string and the isBinaryFile flag
are in hand: classify, then either the sidecar path (register a proxy
handle named after the descriptor and persist an enabled record) or the
scripted path (evaluate, validate, register the export and persist an
enabled record). -/
def loadPluginWithCode (env : LoadEnv) (st : LoaderState) (plugin : SitePlugin)
    (repositoryUrl : String) (code : String) (isBinaryFile fetched : Bool) :
    LoadOutcome :=
  if isBinaryCheck isBinaryFile code then
    match env.jvmLoad plugin.internalName repositoryUrl with
    | Except.error _ => ⟨false, some LoadStage.parse, st, fetched, true⟩
    | Except.ok false => ⟨false, some LoadStage.parse, st, fetched, true⟩
    | Except.ok true =>
        let proxy : Handle := ⟨plugin.internalName, env.proxyId⟩
        let st' : LoaderState :=
          { st with
            registry := addPlugin st.registry proxy,
            stored := savePluginMetadata st.stored
              ⟨plugin.internalName, plugin.url, plugin.version, repositoryUrl, true⟩ }
        ⟨true, none, st', fetched, true⟩
  else
    match env.evalPlugin code with
    | EvalOut.throws _ => ⟨false, some LoadStage.execute, st, fetched, true⟩
    | EvalOut.notObject => ⟨false, some LoadStage.validate, st, fetched, true⟩
    | EvalOut.missingMethods => ⟨false, some LoadStage.validate, st, fetched, true⟩
    | EvalOut.valid h =>
        let st' : LoaderState :=
          { st with
            registry := addPlugin st.registry h,
            stored := savePluginMetadata st.stored
              ⟨plugin.internalName, plugin.url, plugin.version, repositoryUrl, true⟩ }
        ⟨true, none, st', fetched, true⟩

/-- loadPlugin: an already registered internal name returns success at
once; otherwise cached code is used when present (the flag re-derived from
the cached text), else the bytes are downloaded from the descriptor URL and
cached, and the run continues with classification. -/
def loadPlugin (env : LoadEnv) (st : LoaderState) (plugin : SitePlugin)
    (repositoryUrl : String) : LoadOutcome :=
  match getApi st.registry plugin.internalName with
  | some _ => ⟨true, none, st, false, false⟩
  | none =>
    match getStoredPluginCode st.codeStore plugin.internalName repositoryUrl with
    | some code =>
        loadPluginWithCode env st plugin repositoryUrl code
          (jsStartsWith code "PK" || jsStartsWith code "dex\n") false
    | none =>
        match env.download plugin.url with
        | none => ⟨false, some LoadStage.download, st, true, false⟩
        | some d =>
            let st' : LoaderState :=
              { st with codeStore :=
                  storePluginCode st.codeStore plugin.internalName repositoryUrl d.content }
            loadPluginWithCode env st' plugin repositoryUrl d.content d.isArrayBuffer true

/-- unloadPlugin: a stored record with the internal name is looked up; when
present, a same-named registry handle is removed and the record is saved
back with enabled set to false; when absent nothing happens.  The second
component lists the sidecar RPCs the run issued: the source body contains
no sidecar call, so it is always empty. -/
def unloadPlugin (st : LoaderState) (internalName : String) :
    LoaderState × List String :=
  match st.stored.find? (fun p => p.internalName == internalName) with
  | none => (st, [])
  | some plugin =>
      let registry := match getApi st.registry internalName with
        | some api => removePlugin st.registry api
        | none => st.registry
      let stored := savePluginMetadata st.stored { plugin with enabled := false }
      ({ st with registry := registry, stored := stored }, [])

/-- A ResumeEntry: playback position and duration in seconds (exact
rationals standing for the JavaScript numbers), the update timestamp and
the identifying URL. -/
structure ResumeData where
  position : ℚ
  duration : ℚ
  lastUpdated : ℚ
  episodeUrl : String
  episodeName : Option String
deriving DecidableEq, Repr

/-- shouldResume: false for a missing entry, false below 10 seconds, false
past ninety percent of a positive duration, true otherwise. -/
def shouldResume : Option ResumeData → Bool
  | none => false
  | some rd =>
    if rd.position < 10 then false
    else if rd.duration > 0 ∧ rd.position / rd.duration > (9 : ℚ) / 10 then false
    else true

/-- Demonstration provider family with result lists a1 a2 / b1 / c1 c2 c3. -/
def demoProviders : List (Provider String) :=
  [⟨"A", "https://a.example", fun _ => Except.ok ["a1", "a2"], none⟩,
   ⟨"B", "https://b.example", fun _ => Except.ok ["b1"], none⟩,
   ⟨"C", "https://c.example", fun _ => Except.ok ["c1", "c2", "c3"], none⟩]

/-- A stremio service whose search rejects. -/
def demoStremioDown : String → Except String (List String) :=
  fun _ => Except.error "stremio unavailable"

/-- A stremio service with an installed add-on matching the query. -/
def demoStremioUp : String → Except String (List String) :=
  fun _ => Except.ok ["s1"]

/-- The lists the hard-wired stremioService search contributes to the
merge of runSearch: its result list when the call succeeds with at least
one entry, nothing when it rejects or comes back empty. -/
def stremioContribution {α : Type} (stremio : String → Except String (List α))
    (trimmed : String) : List (List α) :=
  match stremio trimmed with
  | Except.ok rs => if rs.length > 0 then [rs] else []
  | Except.error _ => []

/-- Provider family in which provider B rejects. -/
def demoProvidersBFails : List (Provider String) :=
  [⟨"A", "https://a.example", fun _ => Except.ok ["a1", "a2"], none⟩,
   ⟨"B", "https://b.example", fun _ => Except.error "boom", none⟩,
   ⟨"C", "https://c.example", fun _ => Except.ok ["c1", "c2", "c3"], none⟩]

/-- Provider family in which every provider rejects. -/
def demoProvidersAllFail : List (Provider String) :=
  [⟨"A", "https://a.example", fun _ => Except.error "down", none⟩,
   ⟨"B", "https://b.example", fun _ => Except.error "boom", none⟩]

/-- A resume entry with the given position and duration. -/
def demoResume (p d : ℚ) : ResumeData := ⟨p, d, 0, "https://x/ep1", none⟩

/-- A loader environment: the download always misses, the sidecar accepts,
evaluation yields an invalid export. -/
def demoEnv : LoadEnv :=
  ⟨fun _ => none, fun _ _ => Except.ok true, fun _ => EvalOut.notObject, 7⟩

/-- Descriptor of version 2 for internal name p1. -/
def demoDesc : SitePlugin := ⟨"Plugin One", "p1", "https://x/p1.js", 2⟩

/-- State in which p1 is already registered. -/
def demoStRegistered : LoaderState := ⟨[⟨"p1", 1⟩], [], []⟩

/-- State in which p1 is not registered but its bytes are cached, with an
installed record of version 1 (older than demoDesc). -/
def demoStStaleCache : LoaderState :=
  ⟨[], [⟨"p1", "https://x/p1.js", 1, "https://repo.example", true⟩],
   [(("p1", "https://repo.example"), "var x = 1;")]⟩

/-- State in which the foreign-bytecode plugin p1 is installed: a registry
proxy handle, an enabled record, and cached archive bytes. -/
def demoStDexInstalled : LoaderState :=
  ⟨[⟨"p1", 7⟩], [⟨"p1", "https://x/p1.bin", 2, "https://repo.example", true⟩],
   [(("p1", "https://repo.example"), "PK/archive-bytes")]⟩

/-- State with an enabled record for p1 and nothing registered. -/
def demoStRecordOnly : LoaderState :=
  ⟨[], [⟨"p1", "https://x/p1.js", 2, "https://repo.example", true⟩], []⟩

theorem listsMaxLen_le_iff {α : Type} (allLists : List (List α)) (i : Nat) :
    listsMaxLen allLists ≤ i ↔ ∀ l ∈ allLists, l.length ≤ i := by
  induction allLists with
  | nil => simp [listsMaxLen]
  | cons l rest ih =>
      simp only [listsMaxLen, List.foldr_cons, Nat.max_le, List.mem_cons]
      constructor
      · rintro ⟨h1, h2⟩ m (rfl | hm)
        · exact h1
        · exact (ih.mp h2) m hm
      · intro h
        exact ⟨h l (Or.inl rfl), ih.mpr (fun m hm => h m (Or.inr hm))⟩

theorem mergeStep_eq_nil_iff {α : Type} (allLists : List (List α)) (i : Nat) :
    mergeStep allLists i = [] ↔ listsMaxLen allLists ≤ i := by
  rw [mergeStep, List.filterMap_eq_nil_iff, listsMaxLen_le_iff]
  constructor
  · intro h l hl
    exact List.get?_eq_none.mp (h l hl)
  · intro h l hl
    exact List.get?_eq_none.mpr (h l hl)

theorem mergeAux_eq_spec {α : Type} (allLists : List (List α)) :
    ∀ (fuel i : Nat), listsMaxLen allLists < fuel + i →
      mergeAux allLists fuel i =
        ((List.range' i (listsMaxLen allLists - i)).map
          (fun j => mergeStep allLists j)).flatten := by
  intro fuel
  induction fuel with
  | zero =>
      intro i h
      have hle : listsMaxLen allLists - i = 0 := by omega
      simp [mergeAux, hle]
  | succ fuel ih =>
      intro i h
      rw [mergeAux]
      by_cases hstep : mergeStep allLists i = []
      · have hle : listsMaxLen allLists ≤ i := (mergeStep_eq_nil_iff allLists i).mp hstep
        have hz : listsMaxLen allLists - i = 0 := by omega
        simp [hstep, hz]
      · have hlt : i < listsMaxLen allLists := by
          by_contra hc
          exact hstep ((mergeStep_eq_nil_iff allLists i).mpr (by omega))
        have hsub : listsMaxLen allLists - i = (listsMaxLen allLists - (i + 1)) + 1 := by
          omega
        have hrec := ih (i + 1) (by omega)
        rw [hsub, List.range'_succ i _ 1, List.map_cons, List.flatten_cons, ← hrec]
        simp [hstep, List.isEmpty_iff]

theorem mergeResults_eq_spec {α : Type} (allLists : List (List α)) :
    mergeResults allLists = roundRobinSpec allLists := by
  rw [mergeResults, roundRobinSpec,
    mergeAux_eq_spec allLists (listsMaxLen allLists + 1) 0 (by omega),
    List.range_eq_range' (listsMaxLen allLists)]
  simp

/-- C1: the merged output of the orchestrator is the round-robin
interleave of the per-provider result lists, and on the family
a1 a2 / b1 / c1 c2 c3 it is exactly a1 b1 c1 a2 c2 c3. -/
theorem mergedOutput_is_roundRobin {α : Type} :
    (∀ allLists : List (List α), mergeResults allLists = roundRobinSpec allLists) ∧
    (runSearch demoProviders demoStremioDown "ab" {}).mergedResults =
      ["a1", "b1", "c1", "a2", "c2", "c3"] := by
  constructor
  · exact mergeResults_eq_spec
  · rfl

theorem trimChars_length_le (cs : List Char) : (trimChars cs).length ≤ cs.length := by
  rw [trimChars]
  calc ((cs.dropWhile jsIsWhitespace).reverse.dropWhile jsIsWhitespace).reverse.length
      = ((cs.dropWhile jsIsWhitespace).reverse.dropWhile jsIsWhitespace).length := by
        rw [List.length_reverse]
    _ ≤ (cs.dropWhile jsIsWhitespace).reverse.length :=
        (List.dropWhile_sublist jsIsWhitespace).length_le
    _ = (cs.dropWhile jsIsWhitespace).length := by rw [List.length_reverse]
    _ ≤ cs.length := (List.dropWhile_sublist jsIsWhitespace).length_le

theorem jsTrim_length_le (s : String) : (jsTrim s).length ≤ s.length :=
  trimChars_length_le s.data

/-- C7: a query of length under 2 short-circuits runSearch to an idle
envelope with empty merged and per-provider results, whatever the
providers and the stremio service are, so no provider search is invoked. -/
theorem runSearch_short_circuit {α : Type} (query : String)
    (options : SearchOptions) (h : query.length < 2) :
    ∀ (providers : List (Provider α)) (stremio : String → Except String (List α)),
      runSearch providers stremio query options =
        ⟨SearchStatus.idle, jsTrim query, [], [], none⟩ := by
  intro providers stremio
  have hlen : (jsTrim query).length ≤ 1 :=
    Nat.le_of_lt_succ (Nat.lt_of_le_of_lt (jsTrim_length_le query) h)
  rw [runSearch, if_pos hlen]

theorem runSearch_short_circuit_witness :
    "x".length < 2 ∧
      runSearch demoProviders demoStremioDown "x" {} =
        ⟨SearchStatus.idle, jsTrim "x", [], [], none⟩ :=
  ⟨by decide, runSearch_short_circuit "x" {} (by decide) demoProviders demoStremioDown⟩

theorem names_nodup_removePlugin (apis : List Handle) (p : Handle)
    (h : (apis.map Handle.name).Nodup) :
    ((removePlugin apis p).map Handle.name).Nodup :=
  ((List.filter_sublist apis).map Handle.name).nodup h

theorem not_mem_names_removePlugin_self (apis : List Handle) (ex : Handle)
    (hmem : ex ∈ apis) (h : (apis.map Handle.name).Nodup) :
    ∀ q ∈ removePlugin apis ex, q.name ≠ ex.name := by
  intro q hq hname
  rw [removePlugin, List.mem_filter] at hq
  obtain ⟨hqmem, hqne⟩ := hq
  have : q = ex := List.inj_on_of_nodup_map h hqmem hmem hname
  simp [this] at hqne

theorem names_nodup_addPlugin (apis : List Handle) (p : Handle)
    (h : (apis.map Handle.name).Nodup) :
    ((addPlugin apis p).map Handle.name).Nodup := by
  rw [addPlugin]
  cases hfind : apis.find? (fun api => api.name == p.name) with
  | none =>
      have hnone : ∀ a ∈ apis, a.name ≠ p.name := by
        intro a ha
        have := List.find?_eq_none.mp hfind a ha
        simpa using this
      rw [List.map_append]
      refine List.Nodup.append h (by simp) ?_
      intro x hx hy
      simp only [List.map_cons, List.map_nil, List.mem_singleton] at hy
      subst hy
      simp only [List.mem_map] at hx
      obtain ⟨a, ha, hname⟩ := hx
      exact hnone a ha hname
  | some ex =>
      have hexmem : ex ∈ apis := List.mem_of_find?_eq_some hfind
      have hnodup' := names_nodup_removePlugin apis ex h
      have hnotin := not_mem_names_removePlugin_self apis ex hexmem h
      have hexname : ex.name = p.name := by
        have := List.find?_some hfind
        simpa using this
      rw [List.map_append]
      refine List.Nodup.append hnodup' (by simp) ?_
      intro x hx hy
      simp only [List.map_cons, List.map_nil, List.mem_singleton] at hy
      subst hy
      simp only [List.mem_map] at hx
      obtain ⟨a, ha, hname⟩ := hx
      exact hnotin a ha (hname.trans hexname.symm)

theorem addPlugin_filter_name (apis : List Handle) (p : Handle)
    (h : (apis.map Handle.name).Nodup) :
    (addPlugin apis p).filter (fun q => q.name == p.name) = [p] := by
  rw [addPlugin]
  cases hfind : apis.find? (fun api => api.name == p.name) with
  | none =>
      have hnone : ∀ a ∈ apis, ¬(a.name == p.name) = true := by
        intro a ha
        exact List.find?_eq_none.mp hfind a ha
      rw [List.filter_append]
      have h1 : apis.filter (fun q => q.name == p.name) = [] := by
        rw [List.filter_eq_nil_iff]
        exact hnone
      rw [h1]
      simp
  | some ex =>
      have hexmem : ex ∈ apis := List.mem_of_find?_eq_some hfind
      have hnotin := not_mem_names_removePlugin_self apis ex hexmem h
      have hexname : ex.name = p.name := by
        have := List.find?_some hfind
        simpa using this
      rw [List.filter_append]
      have h1 : (removePlugin apis ex).filter (fun q => q.name == p.name) = [] := by
        rw [List.filter_eq_nil_iff]
        intro a ha
        have := hnotin a ha
        simp only [beq_iff_eq]
        intro hc
        exact this (hc.trans hexname.symm)
      rw [h1]
      simp

theorem names_nodup_applyRegistryOps (ops : List RegistryOp) :
    ((applyRegistryOps ops).map Handle.name).Nodup := by
  rw [applyRegistryOps]
  have H : ∀ (l : List RegistryOp) (st : List Handle),
      (st.map Handle.name).Nodup → ((l.foldl applyRegistryOp st).map Handle.name).Nodup := by
    intro l
    induction l with
    | nil => intro st h; simpa using h
    | cons op rest ih =>
        intro st h
        rw [List.foldl_cons]
        refine ih (applyRegistryOp st op) ?_
        cases op with
        | add p => exact names_nodup_addPlugin st p h
        | remove p => exact names_nodup_removePlugin st p h
  exact H ops [] (by simp)

/-- C3: along any sequence of register and unregister operations starting
from the empty registry, getAllApis never holds two handles with the same
name, and registering a handle leaves exactly that one handle answering to
its name. -/
theorem registry_names_unique (ops : List RegistryOp) (p : Handle) :
    ((getAllApis (applyRegistryOps ops)).map Handle.name).Nodup ∧
      (getAllApis (applyRegistryOps (ops ++ [RegistryOp.add p]))).filter
        (fun q => q.name == p.name) = [p] := by
  refine ⟨names_nodup_applyRegistryOps ops, ?_⟩
  rw [getAllApis, applyRegistryOps, List.foldl_append]
  exact addPlugin_filter_name _ p (names_nodup_applyRegistryOps ops)

theorem recordInsert_of_not_mem {α : Type} (k : String) (v : List α)
    (acc : List (String × List α)) (h : ∀ kv ∈ acc, kv.1 ≠ k) :
    recordInsert k v acc = acc ++ [(k, v)] := by
  induction acc with
  | nil => rfl
  | cons kv rest ih =>
      rw [recordInsert]
      have hne : ¬ kv.1 = k := h kv (List.mem_cons_self kv rest)
      rw [if_neg hne, ih (fun kv' hkv' => h kv' (List.mem_cons_of_mem kv hkv'))]
      rfl

theorem gatherResults_eq {α : Type} (t : String) (ps : List (Provider α)) :
    ∀ (acc : List (String × List α)),
      (ps.map Provider.name).Nodup →
      (∀ p ∈ ps, ∀ kv ∈ acc, kv.1 ≠ p.name) →
      gatherResults false t ps acc =
        acc ++ ps.filterMap
          (fun p => ((p.search t).toOption).map (fun r => (p.name, r))) := by
  induction ps with
  | nil => intro acc _ _; simp [gatherResults]
  | cons p rest ih =>
      intro acc hnodup hdisj
      simp only [List.map_cons] at hnodup
      have hcons := List.nodup_cons.mp hnodup
      have hnodup' : (rest.map Provider.name).Nodup := hcons.2
      have hpname : ∀ q ∈ rest, q.name ≠ p.name := by
        intro q hq hc
        exact hcons.1 (hc ▸ List.mem_map_of_mem Provider.name hq)
      rw [gatherResults]
      cases hsearch : p.search t with
      | ok results =>
          have hins : recordInsert p.name results acc = acc ++ [(p.name, results)] :=
            recordInsert_of_not_mem p.name results acc
              (fun kv hkv => hdisj p (List.mem_cons_self p rest) kv hkv)
          have hdisj' : ∀ q ∈ rest, ∀ kv ∈ acc ++ [(p.name, results)], kv.1 ≠ q.name := by
            intro q hq kv hkv
            rcases List.mem_append.mp hkv with hold | hnew
            · exact hdisj q (List.mem_cons_of_mem p hq) kv hold
            · rcases List.mem_singleton.mp hnew with rfl
              intro hc
              exact hpname q hq hc.symm
          simp only [Bool.false_eq_true, if_false, hsearch, hins]
          rw [ih (acc ++ [(p.name, results)]) hnodup' hdisj']
          simp [hsearch, Except.toOption]
      | error e =>
          simp only [Bool.false_eq_true, if_false, hsearch]
          rw [ih acc hnodup' (fun q hq => hdisj q (List.mem_cons_of_mem p hq))]
          simp [hsearch, Except.toOption]

/-- C2 counterexample: with a trimmed query of length 2 every registered
provider rejects, so the round-robin merge of the remaining providers is
empty, yet runSearch resolves with a merged list holding the stremio
add-on match: the merged output is not the merge of the registered
providers alone, and the all-providers-failed merged list is nonempty. -/
theorem runSearch_stremio_leak_counterexample :
    demoProvidersAllFail.filterMap
        (fun p => (p.search (jsTrim "ab")).toOption) = [] ∧
      (runSearch demoProvidersAllFail demoStremioUp "ab" {}).status =
        SearchStatus.success ∧
      (runSearch demoProvidersAllFail demoStremioUp "ab" {}).mergedResults = ["s1"] :=
  ⟨rfl, rfl, rfl⟩

/-- C2 amended: with a trimmed query of length at least 2 and registered
providers with distinct names none of which is the reserved key stremio,
runSearch resolves with a success envelope for every outcome of the
provider and stremio calls; its merged list is the round-robin interleave
of the lists of the providers whose search succeeded followed by the
hard-wired stremio contribution (the stremio list as a final source when
that call succeeds with a nonempty list), so a rejecting provider is
merely excluded; and when every provider rejects and stremio contributes
nothing, the merged list is empty. -/
theorem runSearch_partial_failure {α : Type} (providers : List (Provider α))
    (stremio : String → Except String (List α)) (query : String)
    (hq : 2 ≤ (jsTrim query).length)
    (hnodup : (providers.map Provider.name).Nodup)
    (hns : "stremio" ∉ providers.map Provider.name) :
    (runSearch providers stremio query {}).status = SearchStatus.success ∧
    (runSearch providers stremio query {}).mergedResults =
      roundRobinSpec (providers.filterMap (fun p => (p.search (jsTrim query)).toOption)
        ++ stremioContribution stremio (jsTrim query)) ∧
    ((∀ p ∈ providers, ∀ l, p.search (jsTrim query) ≠ Except.ok l) →
      stremioContribution stremio (jsTrim query) = [] →
      (runSearch providers stremio query {}).mergedResults = []) := by
  have hlen : ¬ (jsTrim query).length ≤ 1 := by omega
  have hfilter : providers.filter
      (fun p => (([] : List String)).isEmpty || ([] : List String).contains p.name)
      = providers :=
    List.filter_eq_self.mpr (fun p _ => by simp)
  have hgather := gatherResults_eq (jsTrim query) providers []
    hnodup (by intro p _ kv hkv; simp at hkv)
  have hsnd : (providers.filterMap
      (fun p => ((p.search (jsTrim query)).toOption).map (fun r => (p.name, r)))).map
        Prod.snd
      = providers.filterMap (fun p => (p.search (jsTrim query)).toOption) := by
    rw [List.map_filterMap]
    congr 1
    funext p
    cases p.search (jsTrim query) <;> simp [Except.toOption]
  have hkeys : ∀ kv ∈ providers.filterMap
      (fun p => ((p.search (jsTrim query)).toOption).map (fun r => (p.name, r))),
      kv.1 ≠ "stremio" := by
    intro kv hkv
    rcases List.mem_filterMap.mp hkv with ⟨p, hp, hmap⟩
    have hpname : p.name ≠ "stremio" := by
      intro hc
      exact hns (hc ▸ List.mem_map_of_mem Provider.name hp)
    cases hsearch : p.search (jsTrim query) with
    | ok l =>
        rw [hsearch] at hmap
        simp only [Except.toOption, Option.map_some', Option.some.injEq] at hmap
        rw [← hmap]
        exact hpname
    | error e =>
        rw [hsearch] at hmap
        simp [Except.toOption] at hmap
  have hkey : (runSearch providers stremio query {}).status = SearchStatus.success ∧
      (runSearch providers stremio query {}).mergedResults =
        roundRobinSpec (providers.filterMap (fun p => (p.search (jsTrim query)).toOption)
          ++ stremioContribution stremio (jsTrim query)) := by
    cases hst : stremio (jsTrim query) with
    | error e =>
        have hmain : runSearch providers stremio query {} =
            ⟨SearchStatus.success, jsTrim query,
              mergeResults ((providers.filterMap
                (fun p => ((p.search (jsTrim query)).toOption).map
                  (fun r => (p.name, r)))).map Prod.snd),
              providers.filterMap
                (fun p => ((p.search (jsTrim query)).toOption).map (fun r => (p.name, r))),
              none⟩ := by
          rw [runSearch, if_neg hlen]
          simp only [SearchOptions.activeProviders, SearchOptions.quick]
          rw [hfilter, hst, hgather]
          simp
        refine ⟨by rw [hmain], ?_⟩
        rw [hmain]
        simp only
        rw [hsnd, mergeResults_eq_spec]
        simp [stremioContribution, hst]
    | ok rs =>
        by_cases hrs : rs.length > 0
        · have hinsert : recordInsert "stremio" rs
              (providers.filterMap
                (fun p => ((p.search (jsTrim query)).toOption).map (fun r => (p.name, r))))
              = providers.filterMap
                  (fun p => ((p.search (jsTrim query)).toOption).map (fun r => (p.name, r)))
                ++ [("stremio", rs)] :=
            recordInsert_of_not_mem "stremio" rs _ hkeys
          have hmain : runSearch providers stremio query {} =
              ⟨SearchStatus.success, jsTrim query,
                mergeResults (((providers.filterMap
                  (fun p => ((p.search (jsTrim query)).toOption).map
                    (fun r => (p.name, r)))) ++ [("stremio", rs)]).map Prod.snd),
                (providers.filterMap
                  (fun p => ((p.search (jsTrim query)).toOption).map (fun r => (p.name, r))))
                  ++ [("stremio", rs)],
                none⟩ := by
            rw [runSearch, if_neg hlen]
            simp only [SearchOptions.activeProviders, SearchOptions.quick]
            rw [hfilter, hst, hgather]
            simp only [List.nil_append, if_pos hrs, hinsert]
          refine ⟨by rw [hmain], ?_⟩
          rw [hmain]
          simp only
          rw [List.map_append, hsnd, mergeResults_eq_spec]
          simp [stremioContribution, hst, hrs]
        · have hmain : runSearch providers stremio query {} =
              ⟨SearchStatus.success, jsTrim query,
                mergeResults ((providers.filterMap
                  (fun p => ((p.search (jsTrim query)).toOption).map
                    (fun r => (p.name, r)))).map Prod.snd),
                providers.filterMap
                  (fun p => ((p.search (jsTrim query)).toOption).map (fun r => (p.name, r))),
                none⟩ := by
            rw [runSearch, if_neg hlen]
            simp only [SearchOptions.activeProviders, SearchOptions.quick]
            rw [hfilter, hst, hgather]
            simp only [List.nil_append, if_neg hrs]
          refine ⟨by rw [hmain], ?_⟩
          rw [hmain]
          simp only
          rw [hsnd, mergeResults_eq_spec]
          simp [stremioContribution, hst, hrs]
  refine ⟨hkey.1, hkey.2, ?_⟩
  intro hall hcontrib
  rw [hkey.2, hcontrib, List.append_nil]
  have hnil : providers.filterMap (fun p => (p.search (jsTrim query)).toOption) = [] := by
    rw [List.filterMap_eq_nil_iff]
    intro p hp
    cases hsearch : p.search (jsTrim query) with
    | ok l => exact absurd hsearch (hall p hp l)
    | error e => simp [Except.toOption]
  rw [hnil]
  rfl

theorem runSearch_partial_failure_witness :
    (runSearch demoProvidersBFails demoStremioUp "ab" {}).status = SearchStatus.success ∧
    (runSearch demoProvidersBFails demoStremioUp "ab" {}).mergedResults =
      roundRobinSpec (demoProvidersBFails.filterMap
        (fun p => (p.search (jsTrim "ab")).toOption)
        ++ stremioContribution demoStremioUp (jsTrim "ab")) ∧
    ((∀ p ∈ demoProvidersBFails, ∀ l, p.search (jsTrim "ab") ≠ Except.ok l) →
      stremioContribution demoStremioUp (jsTrim "ab") = [] →
      (runSearch demoProvidersBFails demoStremioUp "ab" {}).mergedResults = []) :=
  runSearch_partial_failure demoProvidersBFails demoStremioUp "ab"
    (by decide)
    (by
      simp only [demoProvidersBFails]
      decide)
    (by
      simp only [demoProvidersBFails]
      decide)

/-- C8: shouldResume holds exactly when the position is at least 10 and
the duration is nonpositive or at most ninety percent was watched; at
position 5 of 100 it is false, at 95 of 100 false, at 50 of 100 true. -/
theorem shouldResume_spec :
    (∀ rd : ResumeData, shouldResume (some rd) = true ↔
      (10 ≤ rd.position ∧ (rd.duration ≤ 0 ∨ rd.position / rd.duration ≤ (9 : ℚ) / 10))) ∧
    shouldResume (some (demoResume 5 100)) = false ∧
    shouldResume (some (demoResume 95 100)) = false ∧
    shouldResume (some (demoResume 50 100)) = true := by
  refine ⟨?_, by decide, by norm_num [shouldResume, demoResume],
    by norm_num [shouldResume, demoResume]⟩
  intro rd
  rw [shouldResume]
  split_ifs with h1 h2
  · simp only [Bool.false_eq_true, false_iff]
    rintro ⟨ha, _⟩
    linarith
  · simp only [Bool.false_eq_true, false_iff]
    rintro ⟨ha, hb⟩
    rcases hb with hb | hb
    · linarith [h2.1]
    · exact absurd h2.2 (not_lt.mpr hb)
  · simp only [true_iff]
    push_neg at h2
    refine ⟨le_of_not_lt h1, ?_⟩
    rcases le_or_lt rd.duration 0 with hd | hd
    · exact Or.inl hd
    · exact Or.inr (h2 hd)

/-- C10: when the descriptor's internal name is already registered,
loadPlugin returns success with no error and leaves the whole state
untouched: no download, no code execution, no registry, cache or metadata
change. -/
theorem loadPlugin_already_registered (env : LoadEnv) (st : LoaderState)
    (plugin : SitePlugin) (repositoryUrl : String)
    (h : ∃ hdl, getApi st.registry plugin.internalName = some hdl) :
    loadPlugin env st plugin repositoryUrl = ⟨true, none, st, false, false⟩ := by
  obtain ⟨hdl, hh⟩ := h
  rw [loadPlugin, hh]

theorem loadPlugin_already_registered_witness :
    (∃ hdl, getApi demoStRegistered.registry demoDesc.internalName = some hdl) ∧
      loadPlugin demoEnv demoStRegistered demoDesc "https://repo.example" =
        ⟨true, none, demoStRegistered, false, false⟩ :=
  ⟨⟨⟨"p1", 1⟩, rfl⟩,
    loadPlugin_already_registered demoEnv demoStRegistered demoDesc
      "https://repo.example" ⟨⟨"p1", 1⟩, rfl⟩⟩

theorem loadPluginWithCode_fetched (env : LoadEnv) (st : LoaderState)
    (plugin : SitePlugin) (repositoryUrl code : String) (b f : Bool) :
    (loadPluginWithCode env st plugin repositoryUrl code b f).fetched = f := by
  rw [loadPluginWithCode]
  by_cases hb : isBinaryCheck b code
  · rw [if_pos hb]
    cases env.jvmLoad plugin.internalName repositoryUrl with
    | error m => rfl
    | ok bb => cases bb <;> rfl
  · rw [if_neg hb]
    cases env.evalPlugin code <;> rfl

/-- C5 counterexample: p1 is not registered, its bytes are cached, and the
installed record has version 1 while the descriptor has version 2; the
claim demands a re-fetch, yet loadPlugin does not download. -/
theorem loadPlugin_stale_cache_no_fetch :
    getStoredPluginCode demoStStaleCache.codeStore "p1" "https://repo.example" =
        some "var x = 1;" ∧
      demoStStaleCache.stored =
        [⟨"p1", "https://x/p1.js", 1, "https://repo.example", true⟩] ∧
      demoDesc.version = 2 ∧
      getApi demoStStaleCache.registry "p1" = none ∧
      (loadPlugin demoEnv demoStStaleCache demoDesc "https://repo.example").fetched = false :=
  ⟨rfl, rfl, rfl, rfl, rfl⟩

/-- C5 amended: for an unregistered internal name, loadPlugin skips the
network fetch and proceeds with the cached bytes exactly when cached bytes
exist for the (internalName, repositoryUrl) pair, regardless of any stored
or descriptor version; it downloads exactly when no cached bytes exist. -/
theorem loadPlugin_fetch_iff_uncached (env : LoadEnv) (st : LoaderState)
    (plugin : SitePlugin) (repositoryUrl : String)
    (hreg : getApi st.registry plugin.internalName = none) :
    (loadPlugin env st plugin repositoryUrl).fetched = false ↔
      (getStoredPluginCode st.codeStore plugin.internalName repositoryUrl).isSome := by
  rw [loadPlugin, hreg]
  cases hcode : getStoredPluginCode st.codeStore plugin.internalName repositoryUrl with
  | some code =>
      simp [loadPluginWithCode_fetched]
  | none =>
      cases hdl : env.download plugin.url with
      | none => simp
      | some d => simp [loadPluginWithCode_fetched]

theorem loadPlugin_fetch_iff_uncached_witness :
    getApi demoStStaleCache.registry demoDesc.internalName = none ∧
      ((loadPlugin demoEnv demoStStaleCache demoDesc "https://repo.example").fetched = false ↔
        (getStoredPluginCode demoStStaleCache.codeStore demoDesc.internalName
          "https://repo.example").isSome) :=
  ⟨rfl, loadPlugin_fetch_iff_uncached demoEnv demoStStaleCache demoDesc
    "https://repo.example" rfl⟩

theorem find?_savePluginMetadata_disable (stored : List PluginMetadata)
    (n : String) :
    ∀ r, stored.find? (fun p => p.internalName == n) = some r →
      (savePluginMetadata stored { r with enabled := false }).find?
        (fun p => p.internalName == n) = some { r with enabled := false } := by
  induction stored with
  | nil => intro r hr; simp at hr
  | cons q rest ih =>
      intro r hr
      rw [List.find?] at hr
      cases hq : (q.internalName == n) with
      | true =>
          rw [hq] at hr
          simp only [cond_true, Option.some.injEq] at hr
          rw [← hr]
          rw [savePluginMetadata, if_pos ⟨rfl, rfl⟩, List.find?]
          have hq2 : (({ q with enabled := false } : PluginMetadata).internalName == n)
              = true := hq
          rw [hq2]
      | false =>
          rw [hq] at hr
          simp only [cond_false] at hr
          have hrn : r.internalName = n := by
            have := List.find?_some hr
            simpa using this
          have hqn : ¬ (q.internalName = ({ r with enabled := false } : PluginMetadata).internalName ∧
              q.repositoryUrl = ({ r with enabled := false } : PluginMetadata).repositoryUrl) := by
            rintro ⟨h1, _⟩
            simp only at h1
            rw [h1, hrn] at hq
            simp at hq
          rw [savePluginMetadata, if_neg hqn, List.find?, hq]
          simp only [cond_false]
          exact ih r hr

/-- C9: unloading a name with no stored record is an error-free no-op both
times, and when a record exists the record survives each of two successive
unloads with its enabled flag false. -/
theorem unloadPlugin_idempotent (st : LoaderState) (n : String) :
    (st.stored.find? (fun p => p.internalName == n) = none →
      unloadPlugin st n = (st, []) ∧
        unloadPlugin (unloadPlugin st n).1 n = (st, [])) ∧
    (∀ r, st.stored.find? (fun p => p.internalName == n) = some r →
      ((unloadPlugin st n).1.stored.find? (fun p => p.internalName == n) =
          some { r with enabled := false } ∧
        (unloadPlugin (unloadPlugin st n).1 n).1.stored.find?
            (fun p => p.internalName == n) =
          some { r with enabled := false })) := by
  constructor
  · intro hnone
    have h1 : unloadPlugin st n = (st, []) := by
      rw [unloadPlugin, hnone]
    exact ⟨h1, by rw [h1, unloadPlugin, hnone]⟩
  · intro r hr
    have hst1 : (unloadPlugin st n).1.stored =
        savePluginMetadata st.stored { r with enabled := false } := by
      rw [unloadPlugin, hr]
    have hfind1 := find?_savePluginMetadata_disable st.stored n r hr
    refine ⟨by rw [hst1]; exact hfind1, ?_⟩
    have hfind1' : (unloadPlugin st n).1.stored.find? (fun p => p.internalName == n) =
        some { r with enabled := false } := by
      rw [hst1]; exact hfind1
    have hst2 : (unloadPlugin (unloadPlugin st n).1 n).1.stored =
        savePluginMetadata (unloadPlugin st n).1.stored
          { r with enabled := false } := by
      rw [unloadPlugin, hfind1']
    rw [hst2]
    exact find?_savePluginMetadata_disable (unloadPlugin st n).1.stored n
      { r with enabled := false } hfind1'

theorem unloadPlugin_idempotent_witness :
    demoStRecordOnly.stored.find? (fun p => p.internalName == "p1") =
        some ⟨"p1", "https://x/p1.js", 2, "https://repo.example", true⟩ ∧
      ((unloadPlugin demoStRecordOnly "p1").1.stored.find?
          (fun p => p.internalName == "p1") =
        some ⟨"p1", "https://x/p1.js", 2, "https://repo.example", false⟩ ∧
      (unloadPlugin (unloadPlugin demoStRecordOnly "p1").1 "p1").1.stored.find?
          (fun p => p.internalName == "p1") =
        some ⟨"p1", "https://x/p1.js", 2, "https://repo.example", false⟩) :=
  ⟨rfl, (unloadPlugin_idempotent demoStRecordOnly "p1").2
    ⟨"p1", "https://x/p1.js", 2, "https://repo.example", true⟩ rfl⟩

/-- C6 counterexample: p1 is installed as a foreign-bytecode plugin (proxy
handle registered, enabled record, cached archive bytes); unloadPlugin
unregisters the handle and flips the record, but the list of sidecar RPCs
it issues is empty, against the claim that the sidecar unloadPlugin RPC is
issued. -/
theorem unloadPlugin_no_sidecar_rpc_counterexample :
    (unloadPlugin demoStDexInstalled "p1").2 = [] ∧
      (unloadPlugin demoStDexInstalled "p1").1.registry = [] ∧
      (unloadPlugin demoStDexInstalled "p1").1.stored =
        [⟨"p1", "https://x/p1.bin", 2, "https://repo.example", false⟩] :=
  ⟨rfl, rfl, rfl⟩

/-- C6 amended: for any state holding a record under the internal name,
unloadPlugin removes the same-named registry handle and saves the record
back with enabled set to false, but issues no sidecar unloadPlugin RPC,
foreign-bytecode-backed or not. -/
theorem unloadPlugin_effects (st : LoaderState) (n : String) (r : PluginMetadata)
    (hr : st.stored.find? (fun p => p.internalName == n) = some r) :
    (unloadPlugin st n).1.stored.find? (fun p => p.internalName == n) =
        some { r with enabled := false } ∧
      (∀ api, getApi st.registry n = some api →
        (unloadPlugin st n).1.registry = removePlugin st.registry api) ∧
      (unloadPlugin st n).2 = [] := by
  refine ⟨?_, ?_, by rw [unloadPlugin, hr]⟩
  · have hst1 : (unloadPlugin st n).1.stored =
        savePluginMetadata st.stored { r with enabled := false } := by
      rw [unloadPlugin, hr]
    rw [hst1]
    exact find?_savePluginMetadata_disable st.stored n r hr
  · intro api hapi
    rw [unloadPlugin, hr]
    simp only [hapi]

theorem unloadPlugin_effects_witness :
    demoStDexInstalled.stored.find? (fun p => p.internalName == "p1") =
        some ⟨"p1", "https://x/p1.bin", 2, "https://repo.example", true⟩ ∧
      ((unloadPlugin demoStDexInstalled "p1").1.stored.find?
          (fun p => p.internalName == "p1") =
        some ⟨"p1", "https://x/p1.bin", 2, "https://repo.example", false⟩ ∧
      (∀ api, getApi demoStDexInstalled.registry "p1" = some api →
        (unloadPlugin demoStDexInstalled "p1").1.registry =
          removePlugin demoStDexInstalled.registry api) ∧
      (unloadPlugin demoStDexInstalled "p1").2 = []) :=
  ⟨rfl, unloadPlugin_effects demoStDexInstalled "p1"
    ⟨"p1", "https://x/p1.bin", 2, "https://repo.example", true⟩ rfl⟩

/-- C4 counterexample: the two-character text PK holds no control character
yet classifies as binary, against the conjunct that control-free source
text classifies as ScriptedSource; and the control-free text hello, which
does not carry the PK signature, still classifies as binary when the
download arrived as an ArrayBuffer, against classification depending on
the bytes alone. -/
theorem classification_counterexample :
    ("PK".data.all (fun c => !(isControlChar c)) = true ∧
      isBinaryCheck false "PK" = true) ∧
    ("hello".data.all (fun c => !(isControlChar c)) = true ∧
      jsStartsWith "hello" "PK" = false ∧
      isBinaryCheck true "hello" = true) := by
  decide

theorem charsPrefix_subset :
    ∀ (ps cs : List Char), charsPrefix ps cs = true → ∀ p ∈ ps, p ∈ cs := by
  intro ps
  induction ps with
  | nil => intro cs _ p hp; simp at hp
  | cons p0 ps' ih =>
      intro cs hpre p hp
      cases cs with
      | nil => simp [charsPrefix] at hpre
      | cons c cs' =>
          rw [charsPrefix, Bool.and_eq_true] at hpre
          obtain ⟨heq, hrest⟩ := hpre
          rcases List.mem_cons.mp hp with rfl | hp'
          · exact List.mem_cons.mpr (Or.inl (eq_of_beq heq))
          · exact List.mem_cons.mpr (Or.inr (ih cs' hrest p hp'))

theorem isBinaryChar_control (c : Char) (h : isBinaryChar c = true) :
    isControlChar c = true := by
  rw [isBinaryChar] at h
  rw [isControlChar]
  simp only [Bool.or_eq_true, decide_eq_true_eq, Bool.and_eq_true] at h ⊢
  omega

/-- C4 amended: with the binary-download flag clear, text carrying the PK
signature classifies as binary regardless of size; text whose leading
100-character window holds more than a tenth of binary-class characters
classifies as binary; and control-free text without the PK signature
classifies as ScriptedSource.  The classification is the pure function
isBinaryCheck of the flag and the text. -/
theorem classification_spec (t : String) :
    (jsStartsWith t "PK" = true → isBinaryCheck false t = true) ∧
    (((t.data.take 100).filter isBinaryChar).length * 10 > (t.data.take 100).length →
      isBinaryCheck false t = true) ∧
    ((∀ c ∈ t.data, isControlChar c = false) → jsStartsWith t "PK" = false →
      isBinaryCheck false t = false) := by
  refine ⟨?_, ?_, ?_⟩
  · intro h
    rw [isBinaryCheck, if_neg (by simp), if_pos h]
  · intro h
    rw [isBinaryCheck, if_neg (by simp)]
    by_cases hPK : jsStartsWith t "PK"
    · rw [if_pos hPK]
    · rw [if_neg hPK]
      by_cases hdex : jsStartsWith t "dex\n"
      · rw [if_pos hdex]
      · rw [if_neg hdex]
        simpa using h
  · intro hctrl hPK
    have hdex : jsStartsWith t "dex\n" = false := by
      by_contra hc
      have hc' : charsPrefix "dex\n".data t.data = true := by
        rw [jsStartsWith] at hc
        revert hc
        cases charsPrefix "dex\n".data t.data <;> simp
      have hmem : '\n' ∈ t.data :=
        charsPrefix_subset "dex\n".data t.data hc' '\n' (by decide)
      have := hctrl '\n' hmem
      simp [isControlChar] at this
    have hfilter : (t.data.take 100).filter isBinaryChar = [] := by
      rw [List.filter_eq_nil_iff]
      intro c hc
      have hmem : c ∈ t.data := List.mem_of_mem_take hc
      intro hbin
      have := isBinaryChar_control c hbin
      rw [hctrl c hmem] at this
      exact Bool.false_ne_true this
    rw [isBinaryCheck, if_neg (by simp), if_neg (by simp [hPK]),
      if_neg (by simp [hdex])]
    simp [hfilter]

theorem classification_spec_witness :
    (jsStartsWith "PKzip" "PK" = true ∧ isBinaryCheck false "PKzip" = true) ∧
    ((("\x01\x01a".data.take 100).filter isBinaryChar).length * 10 >
        ("\x01\x01a".data.take 100).length ∧
      isBinaryCheck false "\x01\x01a" = true) ∧
    ((∀ c ∈ "var x = 1;".data, isControlChar c = false) ∧
      jsStartsWith "var x = 1;" "PK" = false ∧
      isBinaryCheck false "var x = 1;" = false) :=
  ⟨⟨by decide, (classification_spec "PKzip").1 (by decide)⟩,
   ⟨by decide, (classification_spec "\x01\x01a").2.1 (by decide)⟩,
   ⟨by decide, by decide,
     (classification_spec "var x = 1;").2.2 (by decide) (by decide)⟩⟩

end CloudstreamWin
